import Mathlib

/-!
Verification of the Meta-detector live-session client.

Shallow embedding of `src/services/geminiService.ts` (the session channel,
PCM codec and playback scheduler) and the message/teardown/error handlers of
the App component (`src/App.tsx`).

Modelling conventions:
* JS strings that carry binary data (`btoa`/`atob` results, `String.fromCharCode`
  buffers) are modelled as lists of UTF-16 code units (`List Nat`); other JS
  strings are Lean `String`s.
* JS numbers are modelled as `ℚ` (all arithmetic the program performs on them —
  scaling by powers of two, truncation to Int16, division by a sample rate —
  is exact in binary floating point for the ranges involved).
* Fallible operations (`atob` on invalid input, `new Int16Array` on an
  odd-length buffer, `createBuffer` with zero frames) return `Option`.
* Module-level mutable state becomes an explicit state record threaded through
  the operations; functions that call out (sends, source.start, …) also return
  the list of emitted effects.
-/

namespace MetaDetector

/-! ### Base64 (`btoa` / `atob`, the browser builtins used by `encode`/`decode`)

Modelled from the platform semantics the source relies on: `btoa` maps a
binary string (code units < 256) to base64 text, `atob` is the forgiving
inverse that rejects invalid characters and a length ≡ 1 (mod 4). -/

/-- Base64 alphabet: sextet value to character code. -/
def b64Char (n : ℕ) : ℕ :=
  if n < 26 then 65 + n
  else if n < 52 then 97 + (n - 26)
  else if n < 62 then 48 + (n - 52)
  else if n = 62 then 43
  else 47

/-- Character code back to sextet value; `none` for characters outside the
alphabet (including the padding character `=`, code 61). -/
def b64IndexOf (c : ℕ) : Option ℕ :=
  if 65 ≤ c ∧ c ≤ 90 then some (c - 65)
  else if 97 ≤ c ∧ c ≤ 122 then some (c - 97 + 26)
  else if 48 ≤ c ∧ c ≤ 57 then some (c - 48 + 52)
  else if c = 43 then some 62
  else if c = 47 then some 63
  else none

/-- `btoa`: groups of three bytes become four alphabet characters; a final
group of one or two bytes is padded with `=` (code 61). -/
def btoa : List ℕ → List ℕ
  | [] => []
  | [a] => [b64Char (a / 4), b64Char (a % 4 * 16), 61, 61]
  | [a, b] => [b64Char (a / 4), b64Char (a % 4 * 16 + b / 16), b64Char (b % 16 * 4), 61]
  | a :: b :: c :: rest =>
      b64Char (a / 4) :: b64Char (a % 4 * 16 + b / 16) ::
      b64Char (b % 16 * 4 + c / 64) :: b64Char (c % 64) :: btoa rest

/-- `atob`: the inverse; padding is accepted only at the very end, any
character outside the alphabet (or a leftover length of 1) fails. -/
def atob : List ℕ → Option (List ℕ)
  | [] => some []
  | [c1, c2] =>
      (b64IndexOf c1).bind fun s1 => (b64IndexOf c2).bind fun s2 =>
        some [s1 * 4 + s2 / 16]
  | [c1, c2, c3] =>
      (b64IndexOf c1).bind fun s1 => (b64IndexOf c2).bind fun s2 =>
        (b64IndexOf c3).bind fun s3 =>
          some [s1 * 4 + s2 / 16, s2 % 16 * 16 + s3 / 4]
  | c1 :: c2 :: c3 :: c4 :: rest =>
      if c3 = 61 ∧ c4 = 61 ∧ rest = [] then
        (b64IndexOf c1).bind fun s1 => (b64IndexOf c2).bind fun s2 =>
          some [s1 * 4 + s2 / 16]
      else if c4 = 61 ∧ rest = [] then
        (b64IndexOf c1).bind fun s1 => (b64IndexOf c2).bind fun s2 =>
          (b64IndexOf c3).bind fun s3 =>
            some [s1 * 4 + s2 / 16, s2 % 16 * 16 + s3 / 4]
      else
        (b64IndexOf c1).bind fun s1 => (b64IndexOf c2).bind fun s2 =>
          (b64IndexOf c3).bind fun s3 => (b64IndexOf c4).bind fun s4 =>
            (atob rest).bind fun tl =>
              some ((s1 * 4 + s2 / 16) :: (s2 % 16 * 16 + s3 / 4) ::
                (s3 % 4 * 64 + s4) :: tl)
  | _ => none

/-- `encode` (geminiService line 5): builds the binary string from the byte
array (identity on code units) and base64-encodes it. -/
def encode (bytes : List ℕ) : List ℕ := btoa bytes

/-- `decode` (geminiService line 14): `atob` then `charCodeAt` into a byte
array (identity on code units). -/
def decode (base64 : List ℕ) : Option (List ℕ) := atob base64

lemma b64IndexOf_b64Char {n : ℕ} (h : n < 64) : b64IndexOf (b64Char n) = some n := by
  unfold b64Char b64IndexOf
  split_ifs <;> simp_all <;> omega

lemma b64Char_ne_61 (n : ℕ) : b64Char n ≠ 61 := by
  unfold b64Char
  split_ifs <;> omega

lemma btoa_ne_nil {l : List ℕ} (h : l ≠ []) : btoa l ≠ [] := by
  match l with
  | [] => exact absurd rfl h
  | [a] => simp [btoa]
  | [a, b] => simp [btoa]
  | a :: b :: c :: rest => simp [btoa]

/-- Base64 round trip: decoding the encoding of any byte list gives it back. -/
theorem atob_btoa (bytes : List ℕ) (hb : ∀ x ∈ bytes, x < 256) :
    atob (btoa bytes) = some bytes := by
  induction bytes using btoa.induct with
  | case1 => simp [btoa, atob]
  | case2 a =>
      have ha : a < 256 := hb a (by simp)
      have h1 : a / 4 < 64 := by omega
      have h2 : a % 4 * 16 < 64 := by omega
      simp only [btoa, atob, and_self, List.nil_eq, if_true]
      simp only [b64IndexOf_b64Char h1, b64IndexOf_b64Char h2, Option.some_bind,
        Option.some.injEq, List.cons.injEq, and_true]
      omega
  | case3 a b =>
      have ha : a < 256 := hb a (by simp)
      have hbb : b < 256 := hb b (by simp)
      have h1 : a / 4 < 64 := by omega
      have h2 : a % 4 * 16 + b / 16 < 64 := by omega
      have h3 : b % 16 * 4 < 64 := by omega
      have hne3 : b64Char (b % 16 * 4) ≠ 61 := b64Char_ne_61 _
      simp only [btoa, atob, hne3, false_and, if_false, and_self, List.nil_eq,
        and_true, if_true]
      simp only [b64IndexOf_b64Char h1, b64IndexOf_b64Char h2,
        b64IndexOf_b64Char h3, Option.some_bind, Option.some.injEq,
        List.cons.injEq, and_true]
      constructor <;> omega
  | case4 a b c rest ih =>
      have ha : a < 256 := hb a (by simp)
      have hbb : b < 256 := hb b (by simp)
      have hc : c < 256 := hb c (by simp)
      have h1 : a / 4 < 64 := by omega
      have h2 : a % 4 * 16 + b / 16 < 64 := by omega
      have h3 : b % 16 * 4 + c / 64 < 64 := by omega
      have h4 : c % 64 < 64 := by omega
      have hrest : atob (btoa rest) = some rest := by
        apply ih
        intro x hx
        exact hb x (by simp [hx])
      have hne3 : b64Char (b % 16 * 4 + c / 64) ≠ 61 := b64Char_ne_61 _
      have hne4 : b64Char (c % 64) ≠ 61 := b64Char_ne_61 _
      show atob (b64Char (a / 4) :: b64Char (a % 4 * 16 + b / 16) ::
        b64Char (b % 16 * 4 + c / 64) :: b64Char (c % 64) :: btoa rest) = _
      simp only [atob, hne3, hne4, false_and, if_false]
      simp only [b64IndexOf_b64Char h1, b64IndexOf_b64Char h2,
        b64IndexOf_b64Char h3, b64IndexOf_b64Char h4, hrest, Option.some_bind,
        Option.some.injEq, List.cons.injEq, and_true]
      refine ⟨by omega, by omega, by omega⟩

/-! ### 16-bit PCM conversion -/

/-- Truncation toward zero, the rounding JS applies when a number is stored
into an `Int16Array` element. -/
def jsTrunc (q : ℚ) : ℤ := if 0 ≤ q then ⌊q⌋ else ⌈q⌉

/-- JS `ToInt16`: truncate toward zero, wrap modulo 2^16, reinterpret as a
signed 16-bit value.  This is what `int16[i] = audioData[i] * 32768` applies
to the scaled sample (streamAudio line 146). -/
def toInt16 (q : ℚ) : ℤ :=
  let m := jsTrunc q % 65536
  if 32768 ≤ m then m - 65536 else m

/-- Little-endian byte serialisation of an `Int16Array`, the view
`new Uint8Array(int16.buffer)` takes of the sample words (streamAudio
line 149). -/
def int16ToBytes : List ℤ → List ℕ
  | [] => []
  | v :: rest =>
      let u := (v % 65536).toNat
      u % 256 :: u / 256 :: int16ToBytes rest

/-- The view `new Int16Array(data.buffer)` takes of a little-endian byte
buffer (decodeAudioData line 30); `none` when the byte count is odd, where
the `Int16Array` constructor throws a `RangeError`. -/
def bytesToInt16 : List ℕ → Option (List ℤ)
  | [] => some []
  | lo :: hi :: rest =>
      (bytesToInt16 rest).bind fun tl =>
        let u := lo % 256 + 256 * (hi % 256)
        some ((if 32768 ≤ u then (u : ℤ) - 65536 else (u : ℤ)) :: tl)
  | [_] => none

lemma toInt16_eq_jsTrunc {q : ℚ} (h1 : -32768 ≤ jsTrunc q) (h2 : jsTrunc q < 32768) :
    toInt16 q = jsTrunc q := by
  unfold toInt16
  set t := jsTrunc q with ht
  simp only
  rcases le_or_lt 0 t with hpos | hneg
  · have : t % 65536 = t := Int.emod_eq_of_lt hpos (by omega)
    rw [this, if_neg (by omega)]
  · have : t % 65536 = t + 65536 := by omega
    rw [this, if_pos (by omega)]
    omega

lemma jsTrunc_close (q : ℚ) : |q - jsTrunc q| < 1 := by
  unfold jsTrunc
  split_ifs with h
  · rw [abs_sub_lt_iff]
    constructor
    · linarith [Int.sub_one_lt_floor q]
    · linarith [Int.floor_le q]
  · rw [abs_sub_lt_iff]
    constructor
    · linarith [Int.le_ceil q]
    · linarith [Int.ceil_lt_add_one q]

lemma jsTrunc_bounds {q : ℚ} (hlo : -32768 ≤ q) (hhi : q < 32768) :
    -32768 ≤ jsTrunc q ∧ jsTrunc q < 32768 := by
  unfold jsTrunc
  split_ifs with h
  · constructor
    · have : (0 : ℤ) ≤ ⌊q⌋ := Int.floor_nonneg.mpr h
      omega
    · have : (⌊q⌋ : ℚ) ≤ q := Int.floor_le q
      by_contra hcon
      push_neg at hcon
      have : (32768 : ℚ) ≤ (⌊q⌋ : ℚ) := by exact_mod_cast hcon
      linarith
  · constructor
    · have : (-32768 : ℚ) ≤ q := hlo
      have hceil : (⌈q⌉ : ℚ) ≥ -32768 := by
        have := Int.le_ceil q
        linarith
      exact_mod_cast hceil
    · push_neg at h
      have : ⌈q⌉ ≤ 0 := Int.ceil_le.mpr (by exact_mod_cast le_of_lt h)
      omega

/-- Round trip of the LE byte packing for in-range 16-bit values. -/
lemma bytesToInt16_int16ToBytes (l : List ℤ)
    (hl : ∀ v ∈ l, -32768 ≤ v ∧ v < 32768) :
    bytesToInt16 (int16ToBytes l) = some l := by
  induction l with
  | nil => simp [int16ToBytes, bytesToInt16]
  | cons v rest ih =>
      have hv := hl v (by simp)
      have hrest : bytesToInt16 (int16ToBytes rest) = some rest :=
        ih fun x hx => hl x (by simp [hx])
      have hu : (v % 65536).toNat < 65536 := by
        have h1 : 0 ≤ v % 65536 := Int.emod_nonneg v (by norm_num)
        have h2 : v % 65536 < 65536 := Int.emod_lt_of_pos v (by norm_num)
        omega
      simp only [int16ToBytes, bytesToInt16, hrest, Option.some_bind,
        Option.some.injEq, List.cons.injEq, and_true]
      set u := (v % 65536).toNat with hudef
      have husplit : u % 256 % 256 + 256 * (u / 256 % 256) = u := by omega
      rw [husplit]
      have hval : (u : ℤ) = v % 65536 := by
        rw [hudef]
        exact Int.toNat_of_nonneg (Int.emod_nonneg v (by norm_num))
      rcases le_or_lt 0 v with hpos | hneg
      · have hmod : v % 65536 = v := Int.emod_eq_of_lt hpos (by omega)
        rw [if_neg (by omega)]
        omega
      · have hmod : v % 65536 = v + 65536 := by omega
        rw [if_pos (by omega)]
        omega

lemma int16ToBytes_lt_256 (l : List ℤ) : ∀ x ∈ int16ToBytes l, x < 256 := by
  induction l with
  | nil => simp [int16ToBytes]
  | cons v rest ih =>
      intro x hx
      simp only [int16ToBytes, List.mem_cons] at hx
      rcases hx with h | h | h
      · subst h; omega
      · subst h
        have h1 : 0 ≤ v % 65536 := Int.emod_nonneg v (by norm_num)
        have h2 : v % 65536 < 65536 := Int.emod_lt_of_pos v (by norm_num)
        omega
      · exact ih x h

lemma int16ToBytes_length (l : List ℤ) : (int16ToBytes l).length = 2 * l.length := by
  induction l with
  | nil => simp [int16ToBytes]
  | cons v rest ih => simp [int16ToBytes, ih]; omega

/-! ### `decodeAudioData` and the playback scheduler state -/

/-- A Web Audio `AudioBuffer`: per-channel float sample data at a sample
rate.  `duration` is the platform-defined `length / sampleRate`. -/
structure AudioBuffer where
  sampleRate : ℕ
  numberOfChannels : ℕ
  channelData : List (List ℚ)
  deriving Repr, DecidableEq

/-- `AudioBuffer.length` (the frame count). -/
def AudioBuffer.frameCount (b : AudioBuffer) : ℕ :=
  (b.channelData.headD []).length

/-- `AudioBuffer.duration = length / sampleRate` (Web Audio semantics). -/
def AudioBuffer.duration (b : AudioBuffer) : ℚ :=
  (b.frameCount : ℚ) / (b.sampleRate : ℚ)

/-- `decodeAudioData` (geminiService lines 24-41): view the bytes as
little-endian Int16, de-interleave by channel, rescale by 1/32768.
`none` when `new Int16Array(data.buffer)` throws (odd byte count) or when
`ctx.createBuffer` throws (`NotSupportedError` on zero frames or zero
channels). -/
def decodeAudioData (data : List ℕ) (sampleRate numChannels : ℕ) :
    Option AudioBuffer :=
  (bytesToInt16 data).bind fun dataInt16 =>
    let frameCount := dataInt16.length / numChannels
    if frameCount = 0 ∨ numChannels = 0 then none
    else
      some { sampleRate := sampleRate
             numberOfChannels := numChannels
             channelData :=
               (List.range numChannels).map fun channel =>
                 (List.range frameCount).map fun i =>
                   ((dataInt16.getD (i * numChannels + channel) 0 : ℚ) / 32768) }

/-- The state of an output `AudioContext`: its running clock and whether it
has been closed. -/
structure AudioCtx where
  currentTime : ℚ
  ctxClosed : Bool
  deriving Repr, DecidableEq

/-- Module-level mutable state of geminiService (lines 62-65):
`sessionPromise`, `outputAudioContext`, `nextStartTime`, `sources`.
Sessions and buffer sources are identified by numeric handles. -/
structure ServiceState where
  sessionPromise : Option ℕ
  outputAudioContext : Option AudioCtx
  nextStartTime : ℚ
  sources : List ℕ
  deriving Repr, DecidableEq

/-- Outbound traffic the service emits on the live session. -/
inductive OutMsg where
  | realtimeInput (data : List ℕ) (mimeType : String)
  | toolResponse (id : String) (name : String) (result : String)
  deriving Repr, DecidableEq

/-- The sample-scaling and packing loop of `streamAudio` (lines 143-149):
scale by 32768, store into an `Int16Array`, view as bytes, base64-encode. -/
def streamAudioBlobData (audioData : List ℚ) : List ℕ :=
  encode (int16ToBytes (audioData.map fun x => toInt16 (x * 32768)))

/-- `streamAudio` (lines 140-156): silently returns if no session promise is
set; otherwise encodes the block and enqueues a realtime-input send with mime
type `audio/pcm;rate=16000`. -/
def streamAudio (st : ServiceState) (audioData : List ℚ) :
    ServiceState × List OutMsg :=
  match st.sessionPromise with
  | none => (st, [])
  | some _ =>
      (st, [OutMsg.realtimeInput (streamAudioBlobData audioData)
              "audio/pcm;rate=16000"])

/-- `streamImageFrame` (lines 158-169): silently returns if no session
promise is set; otherwise enqueues the already-encoded JPEG frame. -/
def streamImageFrame (st : ServiceState) (imageDataBase64 : List ℕ) :
    ServiceState × List OutMsg :=
  match st.sessionPromise with
  | none => (st, [])
  | some _ => (st, [OutMsg.realtimeInput imageDataBase64 "image/jpeg"])

/-- `sendToolResponse` (lines 171-182): silently returns if no session
promise is set; otherwise enqueues a function response correlated by id. -/
def sendToolResponse (st : ServiceState) (id name result : String) :
    ServiceState × List OutMsg :=
  match st.sessionPromise with
  | none => (st, [])
  | some _ => (st, [OutMsg.toolResponse id name result])

/-- `playAudioResponse` (lines 184-198).  Returns the new state and, when a
source was scheduled, its `(startTime, duration)` pair.  Guard: a missing or
closed output context returns immediately.  Then the cursor is raised to
`max(nextStartTime, currentTime)`; if decoding fails the async function
rejects there (cursor already raised, nothing scheduled); otherwise the
source starts at the cursor, the cursor advances by the buffer duration and
the source joins the live-set. -/
def playAudioResponse (st : ServiceState) (base64Audio : List ℕ) (srcId : ℕ) :
    ServiceState × Option (ℚ × ℚ) :=
  match st.outputAudioContext with
  | none => (st, none)
  | some c =>
      if c.ctxClosed then (st, none)
      else
        let t := max st.nextStartTime c.currentTime
        let st1 := { st with nextStartTime := t }
        match (decode base64Audio).bind fun bytes =>
                decodeAudioData bytes 24000 1 with
        | none => (st1, none)
        | some audioBuffer =>
            ({ st1 with nextStartTime := t + audioBuffer.duration
                        sources := srcId :: st1.sources },
             some (t, audioBuffer.duration))

/-- `stopAudioPlayback` (lines 200-206): stop and remove every live source,
reset the cursor to 0.  Returns the list of sources that received `stop()`. -/
def stopAudioPlayback (st : ServiceState) : ServiceState × List ℕ :=
  ({ st with sources := [], nextStartTime := 0 }, st.sources)

/-- Resource releases performed by teardown. -/
inductive Release where
  | closeSession (id : ℕ)
  | closeOutputCtx
  | clearFrameInterval (id : ℕ)
  | disconnectScriptProcessor (id : ℕ)
  | disconnectMediaSource (id : ℕ)
  | closeInputCtx
  deriving Repr, DecidableEq

/-- `closeLiveSession` (lines 208-216): close and null the session promise if
one is set; close the output context if it exists and is not already
closed. -/
def closeLiveSession (st : ServiceState) : ServiceState × List Release :=
  let (st1, r1) :=
    match st.sessionPromise with
    | some sid => ({ st with sessionPromise := none }, [Release.closeSession sid])
    | none => (st, [])
  match st1.outputAudioContext with
  | some c =>
      if c.ctxClosed then (st1, r1)
      else ({ st1 with outputAudioContext := some { c with ctxClosed := true } },
            r1 ++ [Release.closeOutputCtx])
  | none => (st1, r1)

/-! ### App component (App.tsx): state, tool dispatch, message handler -/

/-- `BoundingBox` (services/types.ts): normalized floats. -/
structure BoundingBox where
  x : ℚ
  y : ℚ
  width : ℚ
  height : ℚ
  deriving Repr, DecidableEq

/-- `DetectedObject` (services/types.ts). -/
structure DetectedObject where
  name : String
  box : BoundingBox
  deriving Repr, DecidableEq

/-- `AppStatus` (services/types.ts). -/
inductive AppStatus where
  | IDLE
  | SELECT_KEY
  | REQUESTING_PERMISSIONS
  | READY
  | LISTENING
  | ANALYZING
  | ERROR
  | QUOTA_ERROR
  deriving Repr, DecidableEq

/-- Grounding chunks are opaque payloads to the client; identified by
handle. -/
abbrev GroundingChunk := ℕ

/-- The React state the message handler reads and writes: `detectedObjects`,
`selectedObject`, `transcription` (+ its ref mirror), `groundingChunks`. -/
structure AppState where
  detectedObjects : List DetectedObject
  selectedObject : Option DetectedObject
  transcription : String
  transcriptionRef : String
  groundingChunks : List GroundingChunk
  deriving Repr, DecidableEq

/-- One entry of `message.toolCall.functionCalls`: id, name, and the
`detections` argument (read only by the display handler). -/
structure FunctionCall where
  id : String
  name : String
  detections : List DetectedObject
  deriving Repr, DecidableEq

/-- An inbound `LiveServerMessage`, reduced to the facets the handler
inspects (App.tsx onMessage). -/
structure LiveMsg where
  audioData : Option (List ℕ)
  interrupted : Bool
  inputTranscription : Option String
  groundingChunksData : Option (List GroundingChunk)
  toolCall : Option (List FunctionCall)
  turnComplete : Bool
  deriving Repr, DecidableEq

/-- Calls the handler makes into the gemini service. -/
inductive Action where
  | playAudio (data : List ℕ)
  | stopPlayback
  | toolResponse (id : String) (name : String) (result : String)
  deriving Repr, DecidableEq

/-- Success text sent back for a display call (App.tsx line 234). -/
def displayAckText : String := "اشیاء با موفقیت نمایش داده شدند."

/-- Success text sent back for a clear call (App.tsx line 238). -/
def clearAckText : String := "کادرها با موفقیت پاک شدند."

/-- One iteration of the tool-dispatch loop (App.tsx lines 230-240):
`displayDetectedObjects` replaces the detection set and acks;
`clearDetectedObjects` empties detections and selection and acks; any other
name falls through both branches and does nothing. -/
def dispatchOne (st : AppState) (fc : FunctionCall) : AppState × List Action :=
  if fc.name = "displayDetectedObjects" then
    ({ st with detectedObjects := fc.detections },
     [Action.toolResponse fc.id fc.name displayAckText])
  else if fc.name = "clearDetectedObjects" then
    ({ st with detectedObjects := [], selectedObject := none },
     [Action.toolResponse fc.id fc.name clearAckText])
  else (st, [])

/-- The `for (const fc of message.toolCall.functionCalls)` loop. -/
def handleToolCalls (st : AppState) : List FunctionCall → AppState × List Action
  | [] => (st, [])
  | fc :: rest =>
      let (st1, a) := dispatchOne st fc
      let (st2, acts) := handleToolCalls st1 rest
      (st2, a ++ acts)

/-- `onMessage` (App.tsx lines 215-248), facet checks in source order:
inbound audio → playback; interruption → stop playback; input transcription →
append to the running transcript; grounding chunks → replace the reference
list; tool calls → dispatch loop; turn completion → clear transcript and
references. -/
def onMessage (st : AppState) (msg : LiveMsg) : AppState × List Action :=
  let audioActs :=
    match msg.audioData with
    | some d => [Action.playAudio d]
    | none => []
  let intActs := if msg.interrupted then [Action.stopPlayback] else []
  let st2 :=
    match msg.inputTranscription with
    | some t => { st with transcriptionRef := st.transcriptionRef ++ t
                          transcription := st.transcriptionRef ++ t }
    | none => st
  let st3 :=
    match msg.groundingChunksData with
    | some g => { st2 with groundingChunks := g }
    | none => st2
  let (st4, toolActs) :=
    match msg.toolCall with
    | some fcs => handleToolCalls st3 fcs
    | none => (st3, [])
  let st5 :=
    if msg.turnComplete then
      { st4 with transcriptionRef := "", transcription := "", groundingChunks := [] }
    else st4
  (st5, audioActs ++ intActs ++ toolActs)

/-! ### Teardown (`handleSessionStop`, App.tsx lines 44-74) -/

/-- Resources held by the App component alongside the service state. -/
structure AppResources where
  isSessionActive : Bool
  frameInterval : Option ℕ
  scriptProcessor : Option ℕ
  mediaStreamSource : Option ℕ
  inputAudioContext : Option AudioCtx
  svc : ServiceState
  ui : AppState
  deriving Repr, DecidableEq

/-- `handleSessionStop`: returns immediately unless the session is logically
active; otherwise clears the frame interval, closes the live session,
disconnects and nulls the audio tap nodes, closes the input audio context if
open, and resets the UI state. -/
def handleSessionStop (r : AppResources) : AppResources × List Release :=
  if r.isSessionActive = false then (r, [])
  else
    let r := { r with isSessionActive := false }
    let (r, e1) :=
      match r.frameInterval with
      | some n => ({ r with frameInterval := none }, [Release.clearFrameInterval n])
      | none => (r, [])
    let (svc1, e2) := closeLiveSession r.svc
    let r := { r with svc := svc1 }
    let (r, e3) :=
      match r.scriptProcessor with
      | some n => ({ r with scriptProcessor := none },
                   [Release.disconnectScriptProcessor n])
      | none => (r, [])
    let (r, e4) :=
      match r.mediaStreamSource with
      | some n => ({ r with mediaStreamSource := none },
                   [Release.disconnectMediaSource n])
      | none => (r, [])
    let (r, e5) :=
      match r.inputAudioContext with
      | some c =>
          if c.ctxClosed then (r, [])
          else ({ r with inputAudioContext := some { c with ctxClosed := true } },
                [Release.closeInputCtx])
      | none => (r, [])
    let r := { r with ui := { detectedObjects := [], selectedObject := none,
                              transcription := "", transcriptionRef := r.ui.transcriptionRef,
                              groundingChunks := [] } }
    (r, e1 ++ e2 ++ e3 ++ e4 ++ e5)

/-! ### Error classification (App.tsx onError lines 250-263, catch lines
272-288) -/

/-- JS `String.prototype.includes` on character lists. -/
def listIncludes (needle : List Char) : List Char → Bool
  | [] => needle.isEmpty
  | h :: t => needle.isPrefixOf (h :: t) || listIncludes needle t

/-- JS `hay.includes(needle)`. -/
def jsIncludes (hay needle : String) : Bool :=
  listIncludes needle.toList hay.toList

/-- The credential test both paths share: the message contains
`API key not valid` or `Requested entity was not found`. -/
def isKeyInvalidMsg (msg : String) : Bool :=
  jsIncludes msg "API key not valid" || jsIncludes msg "Requested entity was not found"

/-- Status chosen by the `onError` callback: the default generic `ERROR`,
overridden to `SELECT_KEY` when the message is truthy and matches the
credential substrings.  There is no quota branch on this path. -/
def onErrorStatus (msg : String) : AppStatus :=
  if msg ≠ "" ∧ isKeyInvalidMsg msg then AppStatus.SELECT_KEY
  else AppStatus.ERROR

/-- Status chosen by the catch block around `startLiveSession`:
credential substrings → `SELECT_KEY`, else a `quota` substring →
`QUOTA_ERROR`, else generic `ERROR`. -/
def catchStatus (msg : String) : AppStatus :=
  if isKeyInvalidMsg msg then AppStatus.SELECT_KEY
  else if jsIncludes msg "quota" then AppStatus.QUOTA_ERROR
  else AppStatus.ERROR

/-! ### `startLiveSession` (geminiService lines 109-138) -/

/-- A tool made available to the remote service at connect time. -/
inductive ToolConfig where
  | functionDeclarations (names : List String)
  | googleSearch
  deriving Repr, DecidableEq

/-- The connect request `ai.live.connect` is issued with: the key the
`GoogleGenAI` client was constructed from, the model name, and the fixed
config. -/
structure ConnectRequest where
  apiKey : String
  model : String
  responseModalities : List String
  inputAudioTranscription : Bool
  systemInstruction : String
  tools : List ToolConfig
  deriving Repr, DecidableEq

/-- The fixed Persian system directive (geminiService line 130), abbreviated
to a marker constant; the claims only use that it is a fixed constant. -/
def systemInstructionText : String := "SYSTEM_INSTRUCTION_PERSIAN_PERSONA"

/-- `startLiveSession` (geminiService lines 109-138): constructs the client
from the ambient `process.env.API_KEY` (the function has no credential
parameter), creates a fresh 24 kHz output context, resets the cursor to 0 and
stores the new session promise.  Returns the new module state and the connect
request. -/
def startLiveSession (envApiKey : String) (st : ServiceState) (newSession : ℕ) :
    ServiceState × ConnectRequest :=
  ({ st with
      outputAudioContext := some { currentTime := 0, ctxClosed := false }
      nextStartTime := 0
      sessionPromise := some newSession },
   { apiKey := envApiKey
     model := "gemini-2.5-flash-native-audio-preview-09-2025"
     responseModalities := ["AUDIO"]
     inputAudioTranscription := true
     systemInstruction := systemInstructionText
     tools := [ToolConfig.functionDeclarations
                 ["displayDetectedObjects", "clearDetectedObjects"],
               ToolConfig.googleSearch] })

/-- The call site in the App component passes the user-entered key as an
extra argument (`startLiveSession(apiKey, {...})`, App.tsx handleSessionStart);
the service function has no parameter to receive it, so the argument is
dropped. -/
def handleSessionStartConnect (envApiKey userApiKey : String)
    (st : ServiceState) (newSession : ℕ) : ServiceState × ConnectRequest :=
  startLiveSession envApiKey st newSession

/-! ### Per-sample quantization -/

lemma toInt16_sample {s : ℚ} (h1 : -1 ≤ s) (h2 : s < 1) :
    toInt16 (s * 32768) = jsTrunc (s * 32768) ∧
    -32768 ≤ jsTrunc (s * 32768) ∧ jsTrunc (s * 32768) < 32768 ∧
    |((jsTrunc (s * 32768) : ℚ) / 32768) - s| ≤ 1 / 32768 := by
  have hy1 : -32768 ≤ s * 32768 := by linarith
  have hy2 : s * 32768 < 32768 := by linarith
  obtain ⟨hb1, hb2⟩ := jsTrunc_bounds hy1 hy2
  refine ⟨toInt16_eq_jsTrunc hb1 hb2, hb1, hb2, ?_⟩
  have hclose := jsTrunc_close (s * 32768)
  rw [abs_sub_comm] at hclose
  have : |((jsTrunc (s * 32768) : ℚ) / 32768) - s|
      = |(jsTrunc (s * 32768) : ℚ) - s * 32768| / 32768 := by
    rw [← abs_of_pos (show (0:ℚ) < 32768 by norm_num), ← abs_div]
    congr 1
    field_simp
    ring
  rw [this]
  rw [div_le_div_iff₀ (by norm_num) (by norm_num)]
  nlinarith [hclose]

lemma getD_eq_getElem_of_lt {l : List ℚ} {i : ℕ} (h : i < l.length) :
    l.getD i 0 = l[i] := by
  simp [List.getD_eq_getElem?_getD, List.getElem?_eq_getElem h]

lemma getD_int_eq_getElem_of_lt {l : List ℤ} {i : ℕ} (h : i < l.length) :
    l.getD i 0 = l[i] := by
  simp [List.getD_eq_getElem?_getD, List.getElem?_eq_getElem h]

/-- C3 (amended): encoding a nonempty sample buffer with samples in
[-1, 1) as in `streamAudio` and decoding it back as in
`decode`/`decodeAudioData` (24 kHz mono) reproduces every sample to within
one quantization step (1/32768). -/
theorem codec_round_trip (samples : List ℚ) (hne : samples ≠ [])
    (hrange : ∀ s ∈ samples, -1 ≤ s ∧ s < 1) :
    ∃ buf : AudioBuffer,
      ((decode (streamAudioBlobData samples)).bind fun bytes =>
        decodeAudioData bytes 24000 1) = some buf ∧
      buf.sampleRate = 24000 ∧
      ∃ out : List ℚ, buf.channelData = [out] ∧ out.length = samples.length ∧
        ∀ i, i < samples.length → |out.getD i 0 - samples.getD i 0| ≤ 1 / 32768 := by
  set l := samples.map fun s => toInt16 (s * 32768) with hldef
  have hlr : ∀ v ∈ l, -32768 ≤ v ∧ v < 32768 := by
    intro v hv
    rw [hldef] at hv
    simp only [List.mem_map] at hv
    obtain ⟨s, hs, rfl⟩ := hv
    obtain ⟨heq, hb1, hb2, _⟩ := toInt16_sample (hrange s hs).1 (hrange s hs).2
    rw [heq]
    exact ⟨hb1, hb2⟩
  have hdec : decode (streamAudioBlobData samples) = some (int16ToBytes l) := by
    unfold decode streamAudioBlobData encode
    rw [← hldef]
    exact atob_btoa _ (int16ToBytes_lt_256 l)
  have hb16 : bytesToInt16 (int16ToBytes l) = some l :=
    bytesToInt16_int16ToBytes l hlr
  have hlen : l.length = samples.length := by rw [hldef]; simp
  have hlenne : ¬(l.length / 1 = 0 ∨ (1 : ℕ) = 0) := by
    rw [Nat.div_one, hlen]
    rintro (h | h)
    · exact hne (List.length_eq_zero.mp h)
    · exact absurd h one_ne_zero
  refine ⟨{ sampleRate := 24000, numberOfChannels := 1,
            channelData := (List.range 1).map fun channel =>
              (List.range (l.length / 1)).map fun i =>
                ((l.getD (i * 1 + channel) 0 : ℚ) / 32768) }, ?_, rfl, ?_⟩
  · rw [hdec, Option.some_bind]
    unfold decodeAudioData
    rw [hb16, Option.some_bind, if_neg hlenne]
  · refine ⟨(List.range (l.length / 1)).map fun i =>
        ((l.getD (i * 1 + 0) 0 : ℚ) / 32768), ?_, ?_, ?_⟩
    · rw [show (List.range 1) = [0] from rfl, List.map_cons, List.map_nil]
    · simp [hlen, Nat.div_one]
    · intro i hi
      have hil : i < l.length := by rw [hlen]; exact hi
      have hout : ((List.range (l.length / 1)).map fun j =>
          ((l.getD (j * 1 + 0) 0 : ℚ) / 32768)).getD i 0
            = (l.getD i 0 : ℚ) / 32768 := by
        have hlen2 : i < ((List.range (l.length / 1)).map fun j =>
            ((l.getD (j * 1 + 0) 0 : ℚ) / 32768)).length := by
          simpa [Nat.div_one] using hil
        rw [getD_eq_getElem_of_lt hlen2]
        simp [List.getElem_map, List.getElem_range]
      rw [hout]
      have hsome : samples[i]? = some (samples.getD i 0) := by
        rw [getD_eq_getElem_of_lt hi]
        exact List.getElem?_eq_getElem hi
      have hgl : l.getD i 0 = toInt16 (samples.getD i 0 * 32768) := by
        rw [List.getD_eq_getElem?_getD, hldef, List.getElem?_map, hsome]
        rfl
      rw [hgl]
      have hsmem : samples.getD i 0 ∈ samples := by
        rw [getD_eq_getElem_of_lt hi]
        exact List.getElem_mem hi
      obtain ⟨heq, _, _, hq⟩ :=
        toInt16_sample (hrange _ hsmem).1 (hrange _ hsmem).2
      rw [heq]
      exact hq

/-- Witness for C3's amended theorem at the concrete buffer `[0]`. -/
theorem codec_round_trip_witness :
    ∃ buf : AudioBuffer,
      ((decode (streamAudioBlobData [0])).bind fun bytes =>
        decodeAudioData bytes 24000 1) = some buf ∧
      buf.sampleRate = 24000 ∧
      ∃ out : List ℚ, buf.channelData = [out] ∧
        out.length = ([0] : List ℚ).length ∧
        ∀ i, i < ([0] : List ℚ).length →
          |out.getD i 0 - ([0] : List ℚ).getD i 0| ≤ 1 / 32768 :=
  codec_round_trip [0] (by simp) (by norm_num)

/-- C3 counterexample: the claim fails on the closed interval.  At the
in-range sample `1.0` the scaled value 32768 wraps to -32768 in the
`Int16Array` store, so the decoded sample is `-1` and the error is 2, far
above one quantization step.  (Also, the empty buffer makes the decode side
throw, since `createBuffer` rejects zero frames.) -/
theorem codec_round_trip_counterexample :
    ((decode (streamAudioBlobData [1])).bind fun bytes =>
      decodeAudioData bytes 24000 1) =
        some { sampleRate := 24000, numberOfChannels := 1,
               channelData := [[-1]] } ∧
    ¬(|(-1 : ℚ) - 1| ≤ 1 / 32768) ∧
    ((decode (streamAudioBlobData [])).bind fun bytes =>
      decodeAudioData bytes 24000 1) = none := by
  refine ⟨?_, by norm_num, by decide⟩
  have hm : ((1 : ℚ) * 32768) = 32768 := by norm_num
  have ht : toInt16 ((1 : ℚ) * 32768) = -32768 := by rw [hm]; decide
  have hblob : streamAudioBlobData [1] = [65, 73, 65, 61] := by
    unfold streamAudioBlobData encode
    rw [List.map_cons, List.map_nil, ht]
    decide
  have hdec : decode [65, 73, 65, 61] = some [0, 128] := by decide
  have hb16 : bytesToInt16 [0, 128] = some [-32768] := by decide
  rw [hblob, hdec, Option.some_bind]
  unfold decodeAudioData
  rw [hb16, Option.some_bind, if_neg (by decide)]
  have hchan : (List.range 1).map (fun channel => (List.range
      (([-32768] : List ℤ).length / 1)).map fun i =>
        ((([-32768] : List ℤ).getD (i * 1 + channel) 0 : ℚ) / 32768))
      = [[-1]] := by
    rw [show (List.range 1) = [0] from rfl, List.map_cons, List.map_nil,
        show ([-32768] : List ℤ).length / 1 = 1 from rfl,
        show (List.range 1) = [0] from rfl, List.map_cons, List.map_nil]
    norm_num [List.getD]
  simp only [Option.some.injEq, AudioBuffer.mk.injEq]
  exact ⟨trivial, trivial, hchan⟩

/-! ### Playback scheduling runs -/

/-- One enqueue event: the output clock's reading when `playAudioResponse`
runs, the base64 chunk, and the identity of the source node created. -/
structure PlayEvent where
  time : ℚ
  chunk : List ℕ
  srcId : ℕ
  deriving Repr, DecidableEq

/-- The environment advancing the output clock between enqueues. -/
def setClock (st : ServiceState) (t : ℚ) : ServiceState :=
  match st.outputAudioContext with
  | some c => { st with outputAudioContext := some { c with currentTime := t } }
  | none => st

/-- A sequence of `playAudioResponse` calls, each seeing the clock reading of
its event; collects the `(start, duration)` pairs actually scheduled. -/
def playRun (st : ServiceState) : List PlayEvent → ServiceState × List (ℚ × ℚ)
  | [] => (st, [])
  | e :: rest =>
      let st1 := setClock st e.time
      let (st2, r) := playAudioResponse st1 e.chunk e.srcId
      let (st3, rs) := playRun st2 rest
      (st3, r.toList ++ rs)

lemma decodeAudioData_duration_nonneg {data : List ℕ} {sr nc : ℕ}
    {buf : AudioBuffer} (_h : decodeAudioData data sr nc = some buf) :
    0 ≤ buf.duration := by
  unfold AudioBuffer.duration
  positivity

lemma playAudioResponse_none {st : ServiceState} {chunk : List ℕ} {sid : ℕ}
    (h : st.outputAudioContext = none) :
    playAudioResponse st chunk sid = (st, none) := by
  unfold playAudioResponse
  rw [h]

lemma playAudioResponse_closed {st : ServiceState} {c : AudioCtx}
    {chunk : List ℕ} {sid : ℕ} (h : st.outputAudioContext = some c)
    (hcl : c.ctxClosed = true) :
    playAudioResponse st chunk sid = (st, none) := by
  unfold playAudioResponse
  rw [h]
  simp [hcl]

lemma playAudioResponse_open_fail {st : ServiceState} {c : AudioCtx}
    {chunk : List ℕ} {sid : ℕ} (h : st.outputAudioContext = some c)
    (hcl : c.ctxClosed = false)
    (hdec : ((decode chunk).bind fun bytes => decodeAudioData bytes 24000 1)
      = none) :
    playAudioResponse st chunk sid
      = ({ st with nextStartTime := max st.nextStartTime c.currentTime },
         none) := by
  unfold playAudioResponse
  rw [h]
  simp only [hcl, Bool.false_eq_true, if_false, hdec]

lemma playAudioResponse_open_some {st : ServiceState} {c : AudioCtx}
    {chunk : List ℕ} {sid : ℕ} {buf : AudioBuffer}
    (h : st.outputAudioContext = some c) (hcl : c.ctxClosed = false)
    (hdec : ((decode chunk).bind fun bytes => decodeAudioData bytes 24000 1)
      = some buf) :
    playAudioResponse st chunk sid
      = ({ st with nextStartTime := max st.nextStartTime c.currentTime
                     + buf.duration
                   sources := sid :: st.sources },
         some (max st.nextStartTime c.currentTime, buf.duration)) := by
  unfold playAudioResponse
  rw [h]
  simp only [hcl, Bool.false_eq_true, if_false, hdec]

lemma playAudioResponse_ctx (st : ServiceState) (chunk : List ℕ) (sid : ℕ) :
    (playAudioResponse st chunk sid).1.outputAudioContext
      = st.outputAudioContext := by
  rcases hc : st.outputAudioContext with _ | c
  · rw [playAudioResponse_none hc]
    exact hc
  · rcases hcl : c.ctxClosed with _ | _
    · rcases hdec : (decode chunk).bind fun bytes =>
          decodeAudioData bytes 24000 1 with _ | buf
      · rw [playAudioResponse_open_fail hc hcl hdec]
        exact hc
      · rw [playAudioResponse_open_some hc hcl hdec]
        exact hc
    · rw [playAudioResponse_closed hc hcl]
      exact hc

lemma playAudioResponse_cursor_mono (st : ServiceState) (chunk : List ℕ)
    (sid : ℕ) :
    st.nextStartTime ≤ (playAudioResponse st chunk sid).1.nextStartTime := by
  rcases hc : st.outputAudioContext with _ | c
  · rw [playAudioResponse_none hc]
  · rcases hcl : c.ctxClosed with _ | _
    · rcases hdec : (decode chunk).bind fun bytes =>
          decodeAudioData bytes 24000 1 with _ | buf
      · rw [playAudioResponse_open_fail hc hcl hdec]
        exact le_max_left _ _
      · rw [playAudioResponse_open_some hc hcl hdec]
        have hd : 0 ≤ buf.duration := by
          rcases Option.bind_eq_some.mp hdec with ⟨bytes, _, hbuf⟩
          exact decodeAudioData_duration_nonneg hbuf
        have := le_max_left st.nextStartTime c.currentTime
        show st.nextStartTime ≤ max st.nextStartTime c.currentTime + buf.duration
        linarith
    · rw [playAudioResponse_closed hc hcl]

lemma playAudioResponse_sched_lb (st : ServiceState) (chunk : List ℕ)
    (sid : ℕ) :
    ∀ p ∈ (playAudioResponse st chunk sid).2,
      st.nextStartTime ≤ p.1 ∧
        p.1 + p.2 ≤ (playAudioResponse st chunk sid).1.nextStartTime := by
  rcases hc : st.outputAudioContext with _ | c
  · rw [playAudioResponse_none hc]
    simp
  · rcases hcl : c.ctxClosed with _ | _
    · rcases hdec : (decode chunk).bind fun bytes =>
          decodeAudioData bytes 24000 1 with _ | buf
      · rw [playAudioResponse_open_fail hc hcl hdec]
        simp
      · rw [playAudioResponse_open_some hc hcl hdec]
        intro p hp
        simp only [Option.mem_def, Option.some.injEq] at hp
        subst hp
        exact ⟨le_max_left _ _, le_refl _⟩
    · rw [playAudioResponse_closed hc hcl]
      simp

lemma setClock_cursor (st : ServiceState) (t : ℚ) :
    (setClock st t).nextStartTime = st.nextStartTime := by
  unfold setClock
  rcases st.outputAudioContext with _ | c <;> rfl

/-- Every start scheduled by a run is at least the cursor the run began
with. -/
lemma playRun_lb (es : List PlayEvent) :
    ∀ st : ServiceState, ∀ p ∈ (playRun st es).2, st.nextStartTime ≤ p.1 := by
  induction es with
  | nil => intro st p hp; simp [playRun] at hp
  | cons e rest ih =>
      intro st p hp
      simp only [playRun, List.mem_append] at hp
      rcases hp with hp | hp
      · rcases hr : (playAudioResponse (setClock st e.time) e.chunk e.srcId).2
            with _ | q
        · rw [hr] at hp; simp at hp
        · rw [hr] at hp
          simp only [Option.toList_some, List.mem_singleton] at hp
          subst hp
          have := (playAudioResponse_sched_lb (setClock st e.time) e.chunk
            e.srcId p (by rw [hr]; rfl)).1
          rwa [setClock_cursor] at this
      · have hmono : st.nextStartTime ≤
            (playAudioResponse (setClock st e.time) e.chunk e.srcId).1.nextStartTime := by
          have := playAudioResponse_cursor_mono (setClock st e.time) e.chunk e.srcId
          rwa [setClock_cursor] at this
        exact le_trans hmono (ih _ p hp)

/-- The scheduled intervals of any run are chained: each start is at or
after the previous start plus the previous duration. -/
lemma playRun_chain (es : List PlayEvent) :
    ∀ st : ServiceState,
      List.Chain' (fun a b : ℚ × ℚ => a.1 + a.2 ≤ b.1) (playRun st es).2 := by
  induction es with
  | nil => intro st; simp [playRun]
  | cons e rest ih =>
      intro st
      simp only [playRun]
      rcases hr : (playAudioResponse (setClock st e.time) e.chunk e.srcId).2
          with _ | q
      · simpa using ih _
      · simp only [Option.toList_some, List.singleton_append]
        rw [List.chain'_cons']
        refine ⟨?_, ih _⟩
        intro b hb
        have hble := playRun_lb rest
          (playAudioResponse (setClock st e.time) e.chunk e.srcId).1 b
          (List.mem_of_mem_head? hb)
        have hq := (playAudioResponse_sched_lb (setClock st e.time) e.chunk
          e.srcId q (by rw [hr]; rfl)).2
        linarith

lemma setClock_ctx {st : ServiceState} {c : AudioCtx}
    (hctx : st.outputAudioContext = some c) (t : ℚ) :
    (setClock st t).outputAudioContext = some { c with currentTime := t } := by
  unfold setClock
  rw [hctx]

/-- In an open run where every chunk decodes, each event is scheduled and
its start is at or after the clock reading at its enqueue. -/
lemma playRun_forall2 (es : List PlayEvent) :
    ∀ st : ServiceState, ∀ c : AudioCtx,
      st.outputAudioContext = some c → c.ctxClosed = false →
      (∀ e ∈ es, ((decode e.chunk).bind fun bytes =>
        decodeAudioData bytes 24000 1).isSome) →
      List.Forall₂ (fun (e : PlayEvent) (p : ℚ × ℚ) => e.time ≤ p.1)
        es (playRun st es).2 := by
  induction es with
  | nil => intro st c _ _ _; simp [playRun]
  | cons e rest ih =>
      intro st c hctx hopen hev
      have hst1 := setClock_ctx hctx e.time
      obtain ⟨buf, hbuf⟩ := Option.isSome_iff_exists.mp (hev e (by simp))
      have hplay := @playAudioResponse_open_some _ _ e.chunk e.srcId _
        hst1 hopen hbuf
      simp only [playRun, hplay, Option.toList_some, List.singleton_append]
      refine List.Forall₂.cons ?_ ?_
      · show e.time ≤ max (setClock st e.time).nextStartTime
          ({ c with currentTime := e.time } : AudioCtx).currentTime
        exact le_max_right _ _
      · refine ih _ { c with currentTime := e.time } hst1 hopen ?_
        intro x hx
        exact hev x (by simp [hx])

/-- C1 — Playback scheduling non-overlap.  For any run of enqueues through
`playAudioResponse` on an open output context in which every chunk decodes:
(a) the scheduled intervals are chained — each start is at or after the
previous start plus the previous buffer's duration; (b) every enqueued chunk
is scheduled at or after the output clock's reading at its enqueue; (c) the
first chunk starts exactly at `max(cursor, clock.currentTime)` and the
cursor advances by the buffer's duration (the run recursion then yields the
same for every later chunk). -/
theorem playback_no_overlap (st : ServiceState) (c : AudioCtx)
    (es : List PlayEvent) (hctx : st.outputAudioContext = some c)
    (hopen : c.ctxClosed = false)
    (hev : ∀ e ∈ es, ((decode e.chunk).bind fun bytes =>
      decodeAudioData bytes 24000 1).isSome) :
    List.Chain' (fun a b : ℚ × ℚ => a.1 + a.2 ≤ b.1) (playRun st es).2 ∧
    List.Forall₂ (fun (e : PlayEvent) (p : ℚ × ℚ) => e.time ≤ p.1)
      es (playRun st es).2 ∧
    ∀ e rest buf, es = e :: rest →
      ((decode e.chunk).bind fun bytes => decodeAudioData bytes 24000 1)
        = some buf →
      (playRun st es).2.head? = some (max st.nextStartTime e.time, buf.duration)
      ∧ (playAudioResponse (setClock st e.time) e.chunk e.srcId).1.nextStartTime
          = max st.nextStartTime e.time + buf.duration := by
  refine ⟨playRun_chain es st, playRun_forall2 es st c hctx hopen hev, ?_⟩
  rintro e rest buf rfl hbuf
  have hst1 := setClock_ctx hctx e.time
  have hplay := @playAudioResponse_open_some _ _ e.chunk e.srcId _
    hst1 hopen hbuf
  constructor
  · simp only [playRun, hplay, Option.toList_some, List.singleton_append,
      List.head?_cons, Option.some.injEq]
    rw [setClock_cursor]
  · rw [hplay, setClock_cursor]

/-- Witness for C1 at a concrete two-chunk run on a fresh open context. -/
theorem playback_no_overlap_witness :
    let st : ServiceState :=
      { sessionPromise := some 1
        outputAudioContext := some { currentTime := 0, ctxClosed := false }
        nextStartTime := 0
        sources := [] }
    let es : List PlayEvent :=
      [ { time := 0, chunk := [65, 73, 65, 61], srcId := 1 },
        { time := 0, chunk := [65, 73, 65, 61], srcId := 2 } ]
    List.Chain' (fun a b : ℚ × ℚ => a.1 + a.2 ≤ b.1) (playRun st es).2 ∧
    List.Forall₂ (fun (e : PlayEvent) (p : ℚ × ℚ) => e.time ≤ p.1)
      es (playRun st es).2 ∧
    ∀ e rest buf, es = e :: rest →
      ((decode e.chunk).bind fun bytes => decodeAudioData bytes 24000 1)
        = some buf →
      (playRun st es).2.head? = some (max st.nextStartTime e.time, buf.duration)
      ∧ (playAudioResponse (setClock st e.time) e.chunk e.srcId).1.nextStartTime
          = max st.nextStartTime e.time + buf.duration := by
  intro st es
  exact playback_no_overlap st { currentTime := 0, ctxClosed := false } es rfl
    rfl (by decide)

/-- C2 — Interrupt resets the playback cursor.  `stopAudioPlayback` stops
exactly the sources in the live-set, empties the live-set and zeroes the
cursor; afterwards any enqueue on an open clock with a nonnegative reading
schedules at or after the clock's current time, and the scheduling outcome
is independent of the cursor value held before the interrupt (any two
pre-interrupt states sharing the same output context schedule
identically). -/
theorem interrupt_resets_cursor (st : ServiceState) :
    (stopAudioPlayback st).2 = st.sources ∧
    (stopAudioPlayback st).1.sources = [] ∧
    (stopAudioPlayback st).1.nextStartTime = 0 ∧
    (∀ c chunk sid, st.outputAudioContext = some c → c.ctxClosed = false →
      0 ≤ c.currentTime →
      ∀ p ∈ (playAudioResponse (stopAudioPlayback st).1 chunk sid).2,
        c.currentTime ≤ p.1) ∧
    (∀ st2 : ServiceState,
      st2.outputAudioContext = st.outputAudioContext → ∀ chunk sid,
      (playAudioResponse (stopAudioPlayback st).1 chunk sid).2 =
        (playAudioResponse (stopAudioPlayback st2).1 chunk sid).2) := by
  refine ⟨rfl, rfl, rfl, ?_, ?_⟩
  · intro c chunk sid hctx hopen hnn p hp
    have hctx1 : (stopAudioPlayback st).1.outputAudioContext = some c := hctx
    rcases hdec : (decode chunk).bind fun bytes =>
        decodeAudioData bytes 24000 1 with _ | buf
    · rw [playAudioResponse_open_fail hctx1 hopen hdec] at hp
      simp at hp
    · rw [playAudioResponse_open_some hctx1 hopen hdec] at hp
      simp only [Option.mem_def, Option.some.injEq] at hp
      subst hp
      show c.currentTime ≤ max (stopAudioPlayback st).1.nextStartTime c.currentTime
      exact le_max_right _ _
  · intro st2 hctx2 chunk sid
    rcases hc : st.outputAudioContext with _ | c
    · rw [playAudioResponse_none (show (stopAudioPlayback st).1.outputAudioContext
          = none from hc),
        playAudioResponse_none (show (stopAudioPlayback st2).1.outputAudioContext
          = none from hctx2.trans hc)]
    · rcases hcl : c.ctxClosed with _ | _
      · rcases hdec : (decode chunk).bind fun bytes =>
            decodeAudioData bytes 24000 1 with _ | buf
        · rw [playAudioResponse_open_fail
              (show (stopAudioPlayback st).1.outputAudioContext = some c from hc)
              hcl hdec,
            playAudioResponse_open_fail
              (show (stopAudioPlayback st2).1.outputAudioContext = some c from
                hctx2.trans hc) hcl hdec]
        · rw [playAudioResponse_open_some
              (show (stopAudioPlayback st).1.outputAudioContext = some c from hc)
              hcl hdec,
            playAudioResponse_open_some
              (show (stopAudioPlayback st2).1.outputAudioContext = some c from
                hctx2.trans hc) hcl hdec]
          rfl
      · rw [playAudioResponse_closed
            (show (stopAudioPlayback st).1.outputAudioContext = some c from hc)
            hcl,
          playAudioResponse_closed
            (show (stopAudioPlayback st2).1.outputAudioContext = some c from
              hctx2.trans hc) hcl]

/-- Witness for C2 at a concrete state with two live sources and a stale
future cursor. -/
theorem interrupt_resets_cursor_witness :
    let st : ServiceState :=
      { sessionPromise := some 1
        outputAudioContext := some { currentTime := 7, ctxClosed := false }
        nextStartTime := 100
        sources := [3, 4] }
    (stopAudioPlayback st).2 = st.sources ∧
    (stopAudioPlayback st).1.sources = [] ∧
    (stopAudioPlayback st).1.nextStartTime = 0 ∧
    (∀ c chunk sid, st.outputAudioContext = some c → c.ctxClosed = false →
      0 ≤ c.currentTime →
      ∀ p ∈ (playAudioResponse (stopAudioPlayback st).1 chunk sid).2,
        c.currentTime ≤ p.1) ∧
    (∀ st2 : ServiceState,
      st2.outputAudioContext = st.outputAudioContext → ∀ chunk sid,
      (playAudioResponse (stopAudioPlayback st).1 chunk sid).2 =
        (playAudioResponse (stopAudioPlayback st2).1 chunk sid).2) :=
  interrupt_resets_cursor _

/-- C10 — Enqueue after teardown is a silent no-op.  With no output context
or a closed one, `playAudioResponse` returns the state unchanged and
schedules nothing; in particular this holds for the state left by
`closeLiveSession`, for any prior state that had a context. -/
theorem play_after_teardown_noop (chunk : List ℕ) (sid : ℕ) :
    (∀ st : ServiceState,
      (st.outputAudioContext = none ∨
        ∃ c, st.outputAudioContext = some c ∧ c.ctxClosed = true) →
      playAudioResponse st chunk sid = (st, none)) ∧
    (∀ st : ServiceState,
      playAudioResponse (closeLiveSession st).1 chunk sid
        = ((closeLiveSession st).1, none)) := by
  have hmain : ∀ st : ServiceState,
      (st.outputAudioContext = none ∨
        ∃ c, st.outputAudioContext = some c ∧ c.ctxClosed = true) →
      playAudioResponse st chunk sid = (st, none) := by
    intro st h
    rcases h with h | ⟨c, hc, hcl⟩
    · exact playAudioResponse_none h
    · exact playAudioResponse_closed hc hcl
  refine ⟨hmain, ?_⟩
  intro st
  apply hmain
  rcases hs : st.sessionPromise with _ | sid2 <;>
    rcases hc : st.outputAudioContext with _ | c
  · left
    simp only [closeLiveSession, hs, hc]
  · rcases hcl : c.ctxClosed with _ | _
    · right
      refine ⟨{ c with ctxClosed := true }, ?_, rfl⟩
      simp only [closeLiveSession, hs, hc, hcl, Bool.false_eq_true, if_false]
    · right
      refine ⟨c, ?_, hcl⟩
      simp only [closeLiveSession, hs, hc, hcl, if_true]
  · left
    simp only [closeLiveSession, hs, hc]
  · rcases hcl : c.ctxClosed with _ | _
    · right
      refine ⟨{ c with ctxClosed := true }, ?_, rfl⟩
      simp only [closeLiveSession, hs, hc, hcl, Bool.false_eq_true, if_false]
    · right
      refine ⟨c, ?_, hcl⟩
      simp only [closeLiveSession, hs, hc, hcl, if_true]

/-- Witness for C10 at concrete closed/torn-down states. -/
theorem play_after_teardown_noop_witness :
    (∀ st : ServiceState,
      (st.outputAudioContext = none ∨
        ∃ c, st.outputAudioContext = some c ∧ c.ctxClosed = true) →
      playAudioResponse st [65, 73, 65, 61] 9 = (st, none)) ∧
    (∀ st : ServiceState,
      playAudioResponse (closeLiveSession st).1 [65, 73, 65, 61] 9
        = ((closeLiveSession st).1, none)) :=
  play_after_teardown_noop [65, 73, 65, 61] 9

/-! ### C5 — sends without an open session -/

/-- A service state with no session promise and no output context, as after
`closeLiveSession` on a never-opened module. -/
def svcIdle : ServiceState :=
  { sessionPromise := none, outputAudioContext := none, nextStartTime := 0,
    sources := [] }

/-- C5 — Sends without an open session are silent no-ops.  When the session
promise is null, `streamAudio`, `streamImageFrame` and `sendToolResponse`
each return with the state unchanged and nothing sent; when a session is
open, each enqueues exactly its payload. -/
theorem sends_without_session (st : ServiceState) (audio : List ℚ)
    (img : List ℕ) (id name result : String) :
    (st.sessionPromise = none →
      streamAudio st audio = (st, []) ∧
      streamImageFrame st img = (st, []) ∧
      sendToolResponse st id name result = (st, [])) ∧
    (∀ s, st.sessionPromise = some s →
      streamAudio st audio = (st, [OutMsg.realtimeInput
        (streamAudioBlobData audio) "audio/pcm;rate=16000"]) ∧
      streamImageFrame st img = (st, [OutMsg.realtimeInput img "image/jpeg"]) ∧
      sendToolResponse st id name result
        = (st, [OutMsg.toolResponse id name result])) := by
  constructor
  · intro h
    refine ⟨?_, ?_, ?_⟩ <;>
      simp [streamAudio, streamImageFrame, sendToolResponse, h]
  · intro s h
    refine ⟨?_, ?_, ?_⟩ <;>
      simp [streamAudio, streamImageFrame, sendToolResponse, h]

/-- Witness for C5 at the concrete idle state. -/
theorem sends_without_session_witness :
    streamAudio svcIdle [0] = (svcIdle, []) ∧
    streamImageFrame svcIdle [7] = (svcIdle, []) ∧
    sendToolResponse svcIdle "i" "n" "r" = (svcIdle, []) :=
  (sends_without_session svcIdle [0] [7] "i" "n" "r").1 rfl

/-! ### C7 — turn completion clears ephemeral turn state -/

/-- C7 — For any message with the `turnComplete` flag set, after `onMessage`
runs the running transcript (state and ref mirror) and the grounding-chunk
list are empty, whatever they held before; and when the message carries no
tool calls the detection set and selection are untouched (the turn-complete
branch itself never writes them). -/
theorem turn_complete_clears (st : AppState) (msg : LiveMsg)
    (h : msg.turnComplete = true) :
    (onMessage st msg).1.transcription = "" ∧
    (onMessage st msg).1.transcriptionRef = "" ∧
    (onMessage st msg).1.groundingChunks = [] ∧
    (msg.toolCall = none →
      (onMessage st msg).1.detectedObjects = st.detectedObjects ∧
      (onMessage st msg).1.selectedObject = st.selectedObject) := by
  rcases msg with ⟨ad, intr, it, gcd, tc, tcmpl⟩
  simp only at h
  subst h
  refine ⟨?_, ?_, ?_, ?_⟩
  · rcases ad with _ | d <;> rcases it with _ | t <;> rcases gcd with _ | g <;>
      rcases tc with _ | fcs <;> simp [onMessage]
  · rcases ad with _ | d <;> rcases it with _ | t <;> rcases gcd with _ | g <;>
      rcases tc with _ | fcs <;> simp [onMessage]
  · rcases ad with _ | d <;> rcases it with _ | t <;> rcases gcd with _ | g <;>
      rcases tc with _ | fcs <;> simp [onMessage]
  · intro htc
    simp only at htc
    subst htc
    rcases ad with _ | d <;> rcases it with _ | t <;> rcases gcd with _ | g <;>
      simp [onMessage]

/-- A nonempty app state used by concrete instantiations. -/
def appStateBusy : AppState :=
  { detectedObjects :=
      [{ name := "cup", box := { x := 0, y := 0, width := 1, height := 1 } }],
    selectedObject := none, transcription := "hello",
    transcriptionRef := "hello", groundingChunks := [5] }

/-- A turn-complete message carrying transcript and grounding facets. -/
def msgTurnDone : LiveMsg :=
  { audioData := none, interrupted := false, inputTranscription := some "x",
    groundingChunksData := some [9], toolCall := none, turnComplete := true }

/-- Witness for C7 at a concrete message and nonempty prior state. -/
theorem turn_complete_clears_witness :
    (onMessage appStateBusy msgTurnDone).1.transcription = "" ∧
    (onMessage appStateBusy msgTurnDone).1.transcriptionRef = "" ∧
    (onMessage appStateBusy msgTurnDone).1.groundingChunks = [] ∧
    (msgTurnDone.toolCall = none →
      (onMessage appStateBusy msgTurnDone).1.detectedObjects
        = appStateBusy.detectedObjects ∧
      (onMessage appStateBusy msgTurnDone).1.selectedObject
        = appStateBusy.selectedObject) :=
  turn_complete_clears appStateBusy msgTurnDone rfl

/-! ### C4 — tool-call / acknowledgment pairing -/

/-- The empty app state. -/
def appStateEmpty : AppState :=
  { detectedObjects := [], selectedObject := none, transcription := "",
    transcriptionRef := "", groundingChunks := [] }

lemma dispatchOne_display {st : AppState} {fc : FunctionCall}
    (h : fc.name = "displayDetectedObjects") :
    dispatchOne st fc = ({ st with detectedObjects := fc.detections },
      [Action.toolResponse fc.id fc.name displayAckText]) := by
  unfold dispatchOne
  rw [if_pos h]

lemma dispatchOne_clear {st : AppState} {fc : FunctionCall}
    (h : fc.name = "clearDetectedObjects") :
    dispatchOne st fc
      = ({ st with detectedObjects := [], selectedObject := none },
         [Action.toolResponse fc.id fc.name clearAckText]) := by
  unfold dispatchOne
  rw [if_neg (by rw [h]; decide), if_pos h]

lemma handleToolCalls_cons (st : AppState) (fc : FunctionCall)
    (rest : List FunctionCall) :
    handleToolCalls st (fc :: rest)
      = ((handleToolCalls (dispatchOne st fc).1 rest).1,
         (dispatchOne st fc).2 ++ (handleToolCalls (dispatchOne st fc).1 rest).2) := rfl

/-- C4 counterexample: a tool call routed to the dispatch loop whose name is
outside the registry (here `webSearch`) falls through both branches, so the
handler issues no `sendToolResponse` at all for it — the claim's "exactly
one acknowledgment for every routed call" fails on it. -/
theorem tool_ack_counterexample :
    (handleToolCalls appStateEmpty
      [{ id := "id1", name := "webSearch", detections := [] }]).2 = [] := by
  rfl

/-- C4 (amended) — For every tool call with a registered name
(`displayDetectedObjects` or `clearDetectedObjects`) the dispatch loop emits
exactly one acknowledgment carrying that call's id and name, in processing
order — the i-th call's acknowledgment is issued before the (i+1)-th call is
processed, since the trace is the in-order concatenation of the per-call
dispatches; a `displayDetectedObjects` step replaces the detection set
wholesale with its argument in the same step that emits its acknowledgment.
Calls with unregistered names produce no acknowledgment. -/
theorem tool_ack_pairing (st : AppState) (fcs : List FunctionCall)
    (hreg : ∀ fc ∈ fcs, fc.name = "displayDetectedObjects" ∨
      fc.name = "clearDetectedObjects") :
    (handleToolCalls st fcs).2
      = fcs.map (fun fc => Action.toolResponse fc.id fc.name
          (if fc.name = "displayDetectedObjects" then displayAckText
           else clearAckText)) ∧
    (∀ st2 fc, fc.name = "displayDetectedObjects" →
      dispatchOne st2 fc = ({ st2 with detectedObjects := fc.detections },
        [Action.toolResponse fc.id fc.name displayAckText])) := by
  refine ⟨?_, fun st2 fc h => dispatchOne_display h⟩
  induction fcs generalizing st with
  | nil => rfl
  | cons fc rest ih =>
      have hrest : ∀ x ∈ rest, x.name = "displayDetectedObjects" ∨
          x.name = "clearDetectedObjects" := fun x hx => hreg x (by simp [hx])
      rw [handleToolCalls_cons, List.map_cons]
      rcases hreg fc (by simp) with hfc | hfc
      · rw [dispatchOne_display hfc]
        simp only [List.singleton_append, hfc, eq_self_iff_true, if_true,
          List.cons.injEq, true_and]
        exact ih _ hrest
      · rw [dispatchOne_clear hfc]
        have hne : ¬(fc.name = "displayDetectedObjects") := by rw [hfc]; decide
        simp only [List.singleton_append, if_neg hne, List.cons.injEq,
          true_and]
        exact ih _ hrest

/-- The one-object detection payload of end-to-end scenario 2. -/
def detCup : DetectedObject :=
  { name := "cup"
    box := { x := 1/10, y := 1/10, width := 1/5, height := 1/5 } }

/-- A concrete display call carrying `detCup`. -/
def fcDisplay : FunctionCall :=
  { id := "a", name := "displayDetectedObjects", detections := [detCup] }

/-- A concrete clear call. -/
def fcClear : FunctionCall :=
  { id := "b", name := "clearDetectedObjects", detections := [] }

/-- Witness for C4's amended theorem on a concrete display-then-clear
message. -/
theorem tool_ack_pairing_witness :
    let fcs : List FunctionCall := [fcDisplay, fcClear]
    (handleToolCalls appStateEmpty fcs).2
      = fcs.map (fun fc => Action.toolResponse fc.id fc.name
          (if fc.name = "displayDetectedObjects" then displayAckText
           else clearAckText)) ∧
    (∀ st2 fc, fc.name = "displayDetectedObjects" →
      dispatchOne st2 fc = ({ st2 with detectedObjects := fc.detections },
        [Action.toolResponse fc.id fc.name displayAckText])) := by
  intro fcs
  refine tool_ack_pairing appStateEmpty fcs ?_
  intro fc hfc
  rcases List.mem_cons.mp hfc with h | hfc2
  · left
    rw [h]
    rfl
  · rcases List.mem_cons.mp hfc2 with h | h
    · right
      rw [h]
      rfl
    · simp at h

/-! ### C8 — three-way failure classification -/

/-- C8 counterexample: a quota-exceeded failure surfaced through `onError`
is mapped to the generic error status, not the quota status — the `onError`
handler has no quota branch, so the claimed three-way distinction is not
preserved on that path. -/
theorem error_classification_counterexample :
    jsIncludes "quota exceeded" "quota" = true ∧
    isKeyInvalidMsg "quota exceeded" = false ∧
    onErrorStatus "quota exceeded" = AppStatus.ERROR ∧
    AppStatus.ERROR ≠ AppStatus.QUOTA_ERROR := by
  refine ⟨by decide, by decide, ?_, by decide⟩
  unfold onErrorStatus
  rw [if_neg]
  intro hcon
  exact absurd hcon.2 (by decide)

/-- C8 (amended) — On the thrown-from-open path the three-way mapping holds
as claimed (credential substrings → select-key status, else a `quota`
substring → quota status, else generic error).  On the `onError` path only
the credential case is distinguished; every other message — including one
containing `quota` — maps to the generic error status. -/
theorem error_classification (msg : String) :
    (isKeyInvalidMsg msg = true →
      catchStatus msg = AppStatus.SELECT_KEY ∧
      onErrorStatus msg = AppStatus.SELECT_KEY) ∧
    (isKeyInvalidMsg msg = false → jsIncludes msg "quota" = true →
      catchStatus msg = AppStatus.QUOTA_ERROR ∧
      onErrorStatus msg = AppStatus.ERROR) ∧
    (isKeyInvalidMsg msg = false → jsIncludes msg "quota" = false →
      catchStatus msg = AppStatus.ERROR ∧
      onErrorStatus msg = AppStatus.ERROR) := by
  refine ⟨?_, ?_, ?_⟩
  · intro h
    have hne : msg ≠ "" := by
      intro hempty
      subst hempty
      exact absurd h (by decide)
    constructor
    · unfold catchStatus
      rw [if_pos h]
    · unfold onErrorStatus
      rw [if_pos ⟨hne, h⟩]
  · intro h hq
    constructor
    · unfold catchStatus
      rw [if_neg (by simp [h]), if_pos hq]
    · unfold onErrorStatus
      rw [if_neg (by simp [h])]
  · intro h hq
    constructor
    · unfold catchStatus
      rw [if_neg (by simp [h]), if_neg (by simp [hq])]
    · unfold onErrorStatus
      rw [if_neg (by simp [h])]

/-- Witness for C8's amended theorem at a concrete quota message. -/
theorem error_classification_witness :
    catchStatus "You exceeded your current quota" = AppStatus.QUOTA_ERROR ∧
    onErrorStatus "You exceeded your current quota" = AppStatus.ERROR :=
  (error_classification "You exceeded your current quota").2.1
    (by decide) (by decide)

/-! ### C9 — credential noninterference -/

/-- C9 — The service's `startLiveSession` has no credential parameter: the
extra key argument the App call site passes is dropped, the client always
authenticates with the ambient `process.env.API_KEY`, and the state
transition and connect request are identical for any two user-supplied
keys. -/
theorem credential_noninterference (envApiKey k1 k2 : String)
    (st : ServiceState) (newSession : ℕ) :
    handleSessionStartConnect envApiKey k1 st newSession
      = handleSessionStartConnect envApiKey k2 st newSession ∧
    (handleSessionStartConnect envApiKey k1 st newSession).2.apiKey
      = envApiKey ∧
    handleSessionStartConnect envApiKey k1 st newSession
      = startLiveSession envApiKey st newSession :=
  ⟨rfl, rfl, rfl⟩

/-! ### C6 — idempotent teardown -/

/-- Which resource a release event touches (payload-independent). -/
def Release.kind : Release → ℕ
  | .closeSession _ => 0
  | .closeOutputCtx => 1
  | .clearFrameInterval _ => 2
  | .disconnectScriptProcessor _ => 3
  | .disconnectMediaSource _ => 4
  | .closeInputCtx => 5

lemma handleSessionStop_of_inactive {r : AppResources}
    (h : r.isSessionActive = false) : handleSessionStop r = (r, []) := by
  unfold handleSessionStop
  rw [if_pos h]

lemma handleSessionStop_inactive (r : AppResources) :
    (handleSessionStop r).1.isSessionActive = false := by
  obtain ⟨act, fi, sp, ms, ic, ⟨sess, octx, nst, srcs⟩, ui⟩ := r
  rcases act with _ | _
  · rw [handleSessionStop_of_inactive rfl]
  · rcases fi with _ | n <;> rcases sess with _ | sid <;>
      rcases octx with _ | ⟨ot, ocl⟩ <;> rcases sp with _ | spn <;>
      rcases ms with _ | msn <;> rcases ic with _ | ⟨ict, icl⟩ <;>
      simp only [handleSessionStop, closeLiveSession] <;>
      split_ifs <;> simp_all

/-- C6 — Idempotent teardown.  A stop before any session was started touches
nothing; within one active stop every resource kind is released at most
once; and a second stop right after a first one changes nothing and releases
nothing. -/
theorem teardown_idempotent (r : AppResources) :
    (r.isSessionActive = false → handleSessionStop r = (r, [])) ∧
    handleSessionStop (handleSessionStop r).1
      = ((handleSessionStop r).1, []) ∧
    ((handleSessionStop r).2.map Release.kind).Nodup := by
  refine ⟨fun h => handleSessionStop_of_inactive h, ?_, ?_⟩
  · exact handleSessionStop_of_inactive (handleSessionStop_inactive r)
  · obtain ⟨act, fi, sp, ms, ic, ⟨sess, octx, nst, srcs⟩, ui⟩ := r
    rcases act with _ | _
    · rw [handleSessionStop_of_inactive rfl]
      exact List.nodup_nil
    · rcases fi with _ | n <;> rcases sess with _ | sid <;>
        rcases octx with _ | ⟨ot, ocl⟩ <;> rcases sp with _ | spn <;>
        rcases ms with _ | msn <;> rcases ic with _ | ⟨ict, icl⟩ <;>
        simp only [handleSessionStop, closeLiveSession] <;>
        split_ifs <;>
        simp_all [Release.kind, List.nodup_cons]

/-- Fully-populated live resources used by concrete instantiations. -/
def resBusy : AppResources :=
  { isSessionActive := true
    frameInterval := some 11
    scriptProcessor := some 12
    mediaStreamSource := some 13
    inputAudioContext := some { currentTime := 2, ctxClosed := false }
    svc :=
      { sessionPromise := some 1
        outputAudioContext := some { currentTime := 3, ctxClosed := false }
        nextStartTime := 9
        sources := [21, 22] }
    ui := appStateBusy }

/-- Witness for C6 at a fully-populated active resource state. -/
theorem teardown_idempotent_witness :
    (resBusy.isSessionActive = false → handleSessionStop resBusy = (resBusy, [])) ∧
    handleSessionStop (handleSessionStop resBusy).1
      = ((handleSessionStop resBusy).1, []) ∧
    ((handleSessionStop resBusy).2.map Release.kind).Nodup :=
  teardown_idempotent resBusy

end MetaDetector
